import Mathlib

/-!
Verification of the plugin configuration core of the remember@thechief
settings UI: the plugin loader (settings_ui/plugin_loader.py) and the
check/configure handlers (settings_ui/plugin_handlers.py).

The embedding is shallow: JSON documents are an inductive type, the file
system state seen by one handler call is passed explicitly, and each
Python method becomes a pure Lean function.  Exceptions that a method
catches internally are folded into its result; exceptions that escape to
BaseHandler.execute are modelled with Except.  Host names are treated as
strings in ASCII, matching the descriptor files the loader reads.
-/

/-- A parsed JSON document, as produced by json.load: objects keep their
field order (CPython dicts preserve insertion order), numbers are modelled
as integers (descriptor files in the repository use only integral numbers
and strings). -/
inductive Json where
  | null
  | bool (b : Bool)
  | num (n : Int)
  | str (s : String)
  | arr (xs : List Json)
  | obj (fields : List (String × Json))

mutual

/-- Structural equality of JSON values, the meaning of the Python ==
comparison between two parsed documents. -/
def Json.beq : Json → Json → Bool
  | .null, .null => true
  | .bool a, .bool b => a == b
  | .num a, .num b => a == b
  | .str a, .str b => a == b
  | .arr xs, .arr ys => Json.beqList xs ys
  | .obj fs, .obj gs => Json.beqFields fs gs
  | _, _ => false

/-- Elementwise equality of JSON arrays. -/
def Json.beqList : List Json → List Json → Bool
  | [], [] => true
  | x :: xs, y :: ys => Json.beq x y && Json.beqList xs ys
  | _, _ => false

/-- Fieldwise equality of JSON objects. -/
def Json.beqFields : List (String × Json) → List (String × Json) → Bool
  | [], [] => true
  | (k, v) :: fs, (k2, v2) :: gs => k == k2 && Json.beq v v2 && Json.beqFields fs gs
  | _, _ => false

end

/-- Lookup in an insertion-ordered string-keyed map, the meaning of
d.get(k) and of k in d on a Python dict (parsed dicts have distinct keys,
so first match is the match). -/
def lookupA {α : Type} : List (String × α) → String → Option α
  | [], _ => none
  | (k2, v) :: rest, k => if k2 = k then some v else lookupA rest k

/-- Assignment d[k] = v on an insertion-ordered map: replaces the value in
place when the key is present, appends the binding otherwise, exactly as a
CPython dict does. -/
def insertA {α : Type} : List (String × α) → String → α → List (String × α)
  | [], k, v => [(k, v)]
  | (k2, v2) :: rest, k, v =>
    if k2 = k then (k, v) :: rest else (k2, v2) :: insertA rest k v

/-- Membership test k in d on a Python dict. -/
def containsKey {α : Type} (l : List (String × α)) (k : String) : Bool :=
  (lookupA l k).isSome

/-- Keys of a map, in order. -/
def keysOf {α : Type} (l : List (String × α)) : List String :=
  l.map Prod.fst

/-- Number of occurrences of a string in a list of strings. -/
def countStr (x : String) : List String → Nat
  | [] => 0
  | y :: ys => (if y = x then 1 else 0) + countStr x ys

/-- All keys in the list are distinct. -/
def distinctKeys : List String → Prop
  | [] => True
  | k :: ks => k ∉ ks ∧ distinctKeys ks

/-- Boolean prefix test on character lists (ASCII string semantics of
Python str.startswith). -/
def isPre : List Char → List Char → Bool
  | [], _ => true
  | _ :: _, [] => false
  | a :: ps, b :: ss => a == b && isPre ps ss

/-- Boolean substring test on character lists, the meaning of the Python
expression pattern in s. -/
def hasInfix (pattern : List Char) : List Char → Bool
  | [] => pattern.isEmpty
  | c :: rest => isPre pattern (c :: rest) || hasInfix pattern rest

/-- Python substring containment: pattern in s. -/
def strContains (s pattern : String) : Bool :=
  hasInfix pattern.data s.data

/-- Python s.startswith(pre). -/
def pyStartsWith (s pre : String) : Bool :=
  isPre pre.data s.data

/-- Python s.split(sep) for a one-character separator: splits at every
occurrence, keeping empty pieces, and yields one piece for an empty
string. -/
def splitOnChar (sep : Char) : List Char → List (List Char)
  | [] => [[]]
  | c :: rest =>
    match splitOnChar sep rest with
    | [] => [[c]]
    | g :: gs => if c = sep then [] :: g :: gs else (c :: g) :: gs

/-- The key path of a handler: self.key.split(".") in the Python source. -/
def pySplitDot (key : String) : List String :=
  (splitOnChar '.' key.data).map (fun cs => ⟨cs⟩)

/-- Python str.title on ASCII text: a letter that follows a letter is
lowercased, any other letter is uppercased; non-letters pass through and
reset the word state. -/
def titleChars : Bool → List Char → List Char
  | _, [] => []
  | prevCased, c :: rest =>
    if c.isAlpha then
      (if prevCased then c.toLower else c.toUpper) :: titleChars true rest
    else
      c :: titleChars false rest

/-- Python s.title(). -/
def pyTitle (s : String) : String :=
  ⟨titleChars false s.data⟩

/-- The camel-case split performed by PluginLoader._generate_flag_label:
re.sub inserting a space between a lowercase letter and the uppercase
letter that follows it (matches cannot overlap because a match never ends
where another could start). -/
def camelSplitChars : List Char → List Char
  | [] => []
  | [c] => [c]
  | c1 :: c2 :: rest =>
    if c1.isLower && c2.isUpper then c1 :: ' ' :: camelSplitChars (c2 :: rest)
    else c1 :: camelSplitChars (c2 :: rest)

/-- PluginLoader._generate_flag_label: split on camel-case boundaries,
then title-case. -/
def generate_flag_label (flag_key : String) : String :=
  pyTitle ⟨camelSplitChars flag_key.data⟩

/-- Python s.replace(pattern, repl) for a nonempty pattern: replaces
non-overlapping occurrences left to right.  The fuel argument is the
length of the remaining text, which bounds the recursion. -/
def replaceGo (pattern repl : List Char) : Nat → List Char → List Char
  | _, [] => []
  | 0, s => s
  | fuel + 1, c :: rest =>
    if !pattern.isEmpty && isPre pattern (c :: rest) then
      repl ++ replaceGo pattern repl fuel (List.drop (pattern.length - 1) rest)
    else
      c :: replaceGo pattern repl fuel rest

/-- Python s.replace(pattern, repl); the loader only calls replace with
the nonempty literals "-" and "launchFlags.". -/
def pyReplace (s pattern repl : String) : String :=
  ⟨replaceGo pattern.data repl.data s.data.length s.data⟩

/-- Python " ".join(parts). -/
def joinSpace : List String → String
  | [] => ""
  | [s] => s
  | s :: rest => s ++ " " ++ joinSpace rest

/-- All elements of a JSON array as strings, when they all are strings. -/
def allStr : List Json → Option (List String)
  | [] => some []
  | Json.str s :: rest => (allStr rest).map (fun ss => s :: ss)
  | _ => none

/-- The expression " ".join(flags) in the synthesis loop of
PluginLoader._load_plugin_config.  Joining iterates the value: a list of
strings joins its elements, a string joins its characters, a dict joins
its keys; any other value (or a list with a non-string element) raises
TypeError, which skips the plugin, modelled as none. -/
def joinFlags : Json → Option String
  | Json.arr xs => (allStr xs).map joinSpace
  | Json.str s => some (joinSpace (s.data.map (fun c => ⟨[c]⟩)))
  | Json.obj fs => some (joinSpace (keysOf fs))
  | _ => none

/-- BaseHandler.execute for a check handler (CheckHandler.execute): the
underlying check() either returns a boolean or raises an exception whose
message is the string; the wrapper returns (result, None) or
(False, str(e)). -/
def executeCheck (check : Except String Bool) : Bool × Option String :=
  match check with
  | Except.ok r => (r, none)
  | Except.error e => (false, some e)

/-- ConfigureHandler.execute, identical wrapping for configure(). -/
def executeConfigure (configure : Except String Bool) : Bool × Option String :=
  match configure with
  | Except.ok r => (r, none)
  | Except.error e => (false, some e)

/-- The state of the file a structured-key handler targets: missing on
disk, present but unreadable (open/read raises IOError), present but not
parseable JSON (json.load raises JSONDecodeError), or parsed. -/
inductive FileState where
  | missing
  | unreadable
  | malformed
  | parsed (j : Json)

/-- The key-navigation loop of JsonKeyCheckHandler.check: walk the dot
components through nested dicts; a missing component or a non-dict on the
way yields nothing (the method returns False there). -/
def navigate : List String → Json → Option Json
  | [], current => some current
  | k :: ks, Json.obj fields =>
    match lookupA fields k with
    | some v => navigate ks v
    | none => none
  | _ :: _, _ => none

/-- JsonKeyCheckHandler.check: False when the file is missing, unreadable
or malformed; otherwise navigate self.key.split(".") and compare the leaf
with self.value. -/
def jsonKeyCheck (file : FileState) (key : String) (value : Json) : Bool :=
  match file with
  | FileState.parsed j =>
    match navigate (pySplitDot key) j with
    | some current => Json.beq current value
    | none => false
  | _ => false

/-- FileContainsCheckHandler.check on the content of the target file
(none when the file does not exist): substring search, False on a missing
file. -/
def fileContainsCheck (file : Option String) (pattern : String) : Bool :=
  match file with
  | some content => strContains content pattern
  | none => false

/-- Outcome of running an external command with subprocess.run under a
timeout: it exits with a status code, exceeds the timeout
(subprocess.TimeoutExpired), or cannot be spawned (OSError). -/
inductive CmdOutcome where
  | exits (code : Int)
  | timesOut
  | spawnFails

/-- CommandCheckHandler.check: returncode == 0, with TimeoutExpired and
OSError caught and turned into False. -/
def cmdCheckRun : CmdOutcome → Bool
  | CmdOutcome.exits code => code == 0
  | CmdOutcome.timesOut => false
  | CmdOutcome.spawnFails => false

/-- CommandConfigureHandler.configure: same mapping as the command check,
under the larger timeout. -/
def cmdConfigureRun : CmdOutcome → Bool
  | CmdOutcome.exits code => code == 0
  | CmdOutcome.timesOut => false
  | CmdOutcome.spawnFails => false

/-- One subdirectory of the Firefox profile root, with the contents of
its user.js and prefs.js files when those files exist. -/
structure ProfileEntry where
  item : String
  userJs : Option String
  prefsJs : Option String

/-- The inner filename loop of FirefoxProfileCheckHandler.check for one
profile directory: user.js first, then prefs.js. -/
def firefoxCheckEntry (pattern : String) (e : ProfileEntry) : Bool :=
  (match e.userJs with
   | some content => strContains content pattern
   | none => false) ||
  (match e.prefsJs with
   | some content => strContains content pattern
   | none => false)

/-- The directory loop of FirefoxProfileCheckHandler.check: directories
whose name does not contain ".default" are skipped. -/
def firefoxCheckLoop (pattern : String) : List ProfileEntry → Bool
  | [] => false
  | e :: rest =>
    if strContains e.item ".default" then
      firefoxCheckEntry pattern e || firefoxCheckLoop pattern rest
    else
      firefoxCheckLoop pattern rest

/-- FirefoxProfileCheckHandler.check: False when the profile root does
not exist. -/
def firefoxProfileCheck (pattern : String) (profiles : Option (List ProfileEntry)) : Bool :=
  match profiles with
  | none => false
  | some entries => firefoxCheckLoop pattern entries

/-- The text FirefoxConfigureHandler.configure appends to user.js: a
comment header line followed by the preference line. -/
def ffBlob (pref_line : String) : String :=
  "\n// Added by Window Position Remember\n" ++ (pref_line ++ "\n")

/-- The directory loop of FirefoxConfigureHandler.configure: at the first
directory whose name contains ".default", return True untouched when
user.js already contains the check pattern, otherwise append the blob to
user.js (creating it when absent) and stop. -/
def firefoxConfigureLoop (pref_line check_pattern : String) :
    List ProfileEntry → List ProfileEntry × Bool
  | [] => ([], false)
  | e :: rest =>
    if strContains e.item ".default" then
      match e.userJs with
      | some content =>
        if strContains content check_pattern then (e :: rest, true)
        else ({ e with userJs := some (content ++ ffBlob pref_line) } :: rest, true)
      | none => ({ e with userJs := some (ffBlob pref_line) } :: rest, true)
    else
      let r := firefoxConfigureLoop pref_line check_pattern rest
      (e :: r.1, r.2)

/-- FirefoxConfigureHandler.configure: False when the profile root does
not exist; otherwise the loop above, returning the updated profile root
and the success flag. -/
def firefoxConfigure (pref_line check_pattern : String)
    (profiles : Option (List ProfileEntry)) : Option (List ProfileEntry) × Bool :=
  match profiles with
  | none => (none, false)
  | some entries =>
    let r := firefoxConfigureLoop pref_line check_pattern entries
    (some r.1, r.2)

/-- The nested-key write loop of JsonSetConfigureHandler.configure:
descend the key path, creating empty dicts for missing intermediate keys,
and set the leaf.  Reaching a non-dict value on the way raises TypeError
in Python, modelled as none. -/
def setPath : List String → Json → Json → Option Json
  | [k], Json.obj fields, value => some (Json.obj (insertA fields k value))
  | k :: k2 :: ks, Json.obj fields, value =>
    let child :=
      match lookupA fields k with
      | some c => c
      | none => Json.obj []
    (match setPath (k2 :: ks) child value with
     | some child2 => some (Json.obj (insertA fields k child2))
     | none => none)
  | _, _, _ => none

/-- JsonSetConfigureHandler.configure: start from the parsed file when it
exists and parses, otherwise from an empty document (missing file,
JSONDecodeError and IOError all fall through to the empty dict); then set
the key path and write the document back, returning True.  A TypeError
raised by the write loop escapes to execute(). -/
def jsonSetConfigure (file : FileState) (key : String) (value : Json) :
    Except String (FileState × Bool) :=
  let data : Json :=
    match file with
    | FileState.parsed j => j
    | _ => Json.obj []
  match setPath (pySplitDot key) data value with
  | some written => Except.ok (FileState.parsed written, true)
  | none => Except.error "TypeError"

/-- The document consisting of nothing but one nested key path ending in
the given leaf value. -/
def pathDoc : List String → Json → Json
  | [], value => value
  | [k], value => Json.obj [(k, value)]
  | k :: k2 :: ks, value => Json.obj [(k, pathDoc (k2 :: ks) value)]

/-- The content of the target file of FileAppendConfigureHandler when it
exists. -/
def optStr : Option String → String
  | some s => s
  | none => ""

/-- FileAppendConfigureHandler.configure: when check_pattern is truthy
(neither None nor empty) and the target file exists and already contains
it, report success without writing; otherwise append the content (the
file is created when absent) and report success. -/
def fileAppendConfigure (file : Option String) (content : String)
    (check_pattern : Option String) : Option String × Bool :=
  match check_pattern with
  | some p =>
    if p = "" then
      (some (optStr file ++ content), true)
    else
      match file with
      | some s =>
        if strContains s p then (some s, true)
        else (some (s ++ content), true)
      | none => (some content, true)
  | none => (some (optStr file ++ content), true)

/-- One user-configurable knob of a plugin (dataclass PluginSetting).
Values taken verbatim from the descriptor keep their JSON form; absent
optional descriptors are none. -/
structure PluginSetting where
  key : String
  type : Json
  label : Json
  description : Json
  check : Option Json
  configure : Option Json
  unconfigure : Option Json
  open_settings : Option Json
  options : Option Json
  default : Option Json

/-- PluginLoader._parse_setting: read one setting definition, with the
documented defaults for type, label and description. -/
def parse_setting (key : String) (d : List (String × Json)) : PluginSetting :=
  { key := key
    type := (lookupA d "type").getD (Json.str "boolean")
    label := (lookupA d "label").getD (Json.str key)
    description := (lookupA d "description").getD (Json.str "")
    check := lookupA d "check"
    configure := lookupA d "configure"
    unconfigure := lookupA d "unconfigure"
    open_settings := lookupA d "openSettings"
    options := lookupA d "options"
    default := lookupA d "default" }

/-- The settings-parsing loop of PluginLoader._load_plugin_config: each
entry of the settings block must itself be an object, otherwise the
attribute access in _parse_setting raises and the plugin is skipped. -/
def parseSettings (acc : List (String × PluginSetting)) :
    List (String × Json) → Option (List (String × PluginSetting))
  | [] => some acc
  | (k, Json.obj d) :: rest => parseSettings (insertA acc k (parse_setting k d)) rest
  | (_, _) :: _ => none

/-- The setting synthesized for a conditional launch flag whose key is
not yet in the settings map (the PluginSetting literal in
_load_plugin_config). -/
def launchFlagSetting (key joined : String) : PluginSetting :=
  { key := key
    type := Json.str "launch_flag"
    label := Json.str (generate_flag_label key)
    description := Json.str ("Use flags: " ++ joined)
    check := none
    configure := none
    unconfigure := none
    open_settings := none
    options := none
    default := some (Json.bool true) }

/-- The launch-flag synthesis loop of PluginLoader._load_plugin_config:
for each conditionalFlags entry whose key starts with "launchFlags.", the
setting key is the flag key with every occurrence of "launchFlags."
removed (Python str.replace); when that key is not yet present a
launch-flag setting is synthesized for it. -/
def synthFlags (settings : List (String × PluginSetting)) :
    List (String × Json) → Option (List (String × PluginSetting))
  | [] => some settings
  | (flagKey, flags) :: rest =>
    if pyStartsWith flagKey "launchFlags." then
      let settingKey := pyReplace flagKey "launchFlags." ""
      if containsKey settings settingKey then
        synthFlags settings rest
      else
        match joinFlags flags with
        | some joined =>
          synthFlags (insertA settings settingKey (launchFlagSetting settingKey joined)) rest
        | none => none
    else
      synthFlags settings rest

/-- One loaded plugin (dataclass PluginConfig).  Fields copied from the
descriptor keep their JSON form; name and plugin_path are the strings the
loader actually manipulates. -/
structure PluginConfig where
  name : String
  display_name : Json
  description : Json
  version : Json
  wm_class : Json
  plugin_type : Json
  executables : Json
  flags : Json
  conditional_flags : List (String × Json)
  is_single_instance : Json
  auto_restore : Json
  needs_config_manipulation : Json
  needs_title_parsing : Json
  settings : List (String × PluginSetting)
  plugin_path : String

/-- The launch block of a descriptor: data.get("launch", defaulting to an
empty dict).  A non-dict value makes the subsequent attribute access
raise, skipping the plugin. -/
def getLaunchFields (data : List (String × Json)) : Option (List (String × Json)) :=
  match lookupA data "launch" with
  | some (Json.obj fs) => some fs
  | none => some []
  | some _ => none

/-- The conditionalFlags block of the launch section, defaulting to an
empty dict; iterating a non-dict raises and skips the plugin. -/
def getCondFlags (launch : List (String × Json)) : Option (List (String × Json)) :=
  match lookupA launch "conditionalFlags" with
  | some (Json.obj fs) => some fs
  | none => some []
  | some _ => none

/-- The features block of a descriptor, defaulting to an empty dict. -/
def getFeatures (data : List (String × Json)) : Option (List (String × Json)) :=
  match lookupA data "features" with
  | some (Json.obj fs) => some fs
  | none => some []
  | some _ => none

/-- The settings block of a descriptor, defaulting to an empty dict. -/
def getSettingsData (data : List (String × Json)) : Option (List (String × Json)) :=
  match lookupA data "settings" with
  | some (Json.obj fs) => some fs
  | none => some []
  | some _ => none

/-- PluginLoader._load_plugin_config on an already parsed descriptor (a
file that fails json.load is handled by the caller and never reaches this
construction).  The descriptor must be an object with a non-empty string
name, the sub-blocks must be dicts where accessed, and every settings
entry must be an object; any violation raises or returns None in Python,
both of which skip the plugin, modelled as none.  Names are modelled as
strings: a descriptor whose name is a non-string value is treated as
invalid. -/
def load_plugin_config (j : Json) (plugin_path : String) : Option PluginConfig :=
  match j with
  | Json.obj data =>
    (match lookupA data "name" with
     | some (Json.str name) =>
       if name = "" then none
       else
         match getLaunchFields data with
         | none => none
         | some launch =>
           match getCondFlags launch with
           | none => none
           | some conditional_flags =>
             match getFeatures data with
             | none => none
             | some features =>
               match getSettingsData data with
               | none => none
               | some settings_data =>
                 match parseSettings [] settings_data with
                 | none => none
                 | some settings0 =>
                   match synthFlags settings0 conditional_flags with
                   | none => none
                   | some settings =>
                     some
                       { name := name
                         display_name :=
                           (lookupA data "displayName").getD
                             (Json.str (pyTitle (pyReplace name "-" " ")))
                         description := (lookupA data "description").getD (Json.str "")
                         version := (lookupA data "version").getD (Json.str "1.0.0")
                         wm_class := (lookupA data "wmClass").getD (Json.arr [])
                         plugin_type := (lookupA data "type").getD (Json.str "")
                         executables := (lookupA launch "executables").getD (Json.arr [])
                         flags := (lookupA launch "flags").getD (Json.arr [])
                         conditional_flags := conditional_flags
                         is_single_instance :=
                           (lookupA features "isSingleInstance").getD (Json.bool false)
                         auto_restore :=
                           (lookupA features "autoRestore").getD (Json.bool false)
                         needs_config_manipulation :=
                           (lookupA features "needsConfigManipulation").getD (Json.bool false)
                         needs_title_parsing :=
                           (lookupA features "needsTitleParsing").getD (Json.bool false)
                         settings := settings
                         plugin_path := plugin_path }
     | _ => none)
  | _ => none

/-- The config.json of one candidate plugin directory: absent (no file,
or the entry is not a directory), present but failing json.load or the
read (the malformed or I/O-error case), or parsed. -/
inductive ConfigFile where
  | absent
  | malformed
  | parsed (j : Json)

/-- One entry of os.listdir on a plugin root. -/
structure DirEntry where
  item : String
  config : ConfigFile

/-- One plugin root directory with its entries in listdir order. -/
structure Root where
  base : String
  entries : List DirEntry

/-- The directory loop of PluginLoader._scan_plugin_directory: entries
without a config.json are ignored, a malformed config is logged and
skipped, a loaded config is stored under its name, overwriting a plugin
of the same name from an earlier root or entry. -/
def scan_go (base : String) (plugins : List (String × PluginConfig)) :
    List DirEntry → List (String × PluginConfig)
  | [] => plugins
  | e :: rest =>
    match e.config with
    | ConfigFile.parsed j =>
      (match load_plugin_config j (base ++ "/" ++ e.item) with
       | some config => scan_go base (insertA plugins config.name config) rest
       | none => scan_go base plugins rest)
    | _ => scan_go base plugins rest

/-- PluginLoader._scan_plugin_directory on one root. -/
def scan_plugin_directory (plugins : List (String × PluginConfig)) (root : Root) :
    List (String × PluginConfig) :=
  scan_go root.base plugins root.entries

/-- PluginLoader.load_all: scan the existing plugin roots in order (the
extension root first, the user root second) into one name-keyed map. -/
def load_all (roots : List Root) : List (String × PluginConfig) :=
  roots.foldl scan_plugin_directory []

/-- PluginLoader.get_plugin: load everything, then look the name up. -/
def get_plugin (roots : List Root) (name : String) : Option PluginConfig :=
  lookupA (load_all roots) name

/-- The last plugin record with the given name that a scan of the entries
successfully loads, if any; a helper for stating the override claims. -/
def lastNamed (base X : String) : List DirEntry → Option PluginConfig
  | [] => none
  | e :: rest =>
    match lastNamed base X rest with
    | some c => some c
    | none =>
      match e.config with
      | ConfigFile.parsed j =>
        (match load_plugin_config j (base ++ "/" ++ e.item) with
         | some cfg => if cfg.name = X then some cfg else none
         | none => none)
      | _ => none

/-- Modelled from the spec: the stripped key of a conditionalFlags entry,
described as the key with the leading "launchFlags." prefix removed
("launchFlags.fooBar" yields "fooBar").  Used to compare the stated
synthesis rule with the replace-all behaviour of the source. -/
def specStrippedKey (flag_key : String) : String :=
  ⟨flag_key.data.drop ("launchFlags.".data.length)⟩

/-- A placeholder record used only as the default of Option.getD when
naming concretely computed plugin records. -/
def emptyPluginConfig : PluginConfig :=
  { name := ""
    display_name := Json.null
    description := Json.null
    version := Json.null
    wm_class := Json.null
    plugin_type := Json.null
    executables := Json.null
    flags := Json.null
    conditional_flags := []
    is_single_instance := Json.null
    auto_restore := Json.null
    needs_config_manipulation := Json.null
    needs_title_parsing := Json.null
    settings := []
    plugin_path := "" }

/-- Descriptor exercising the launch-flag synthesis on a conditionalFlags
key in which the substring "launchFlags." occurs twice. -/
def nestedFlagDescriptor : Json :=
  Json.obj [("name", Json.str "plug"),
    ("launch", Json.obj [("conditionalFlags",
      Json.obj [("launchFlags.launchFlags.fooBar", Json.arr [Json.str "--x"])])])]

/-- The plugin record the loader produces for nestedFlagDescriptor. -/
def nestedFlagConfig : PluginConfig :=
  (load_plugin_config nestedFlagDescriptor "p").getD emptyPluginConfig

/-- Descriptor with one ordinary conditional launch flag and no explicit
settings. -/
def fooBarDescriptor : Json :=
  Json.obj [("name", Json.str "plug"),
    ("launch", Json.obj [("conditionalFlags",
      Json.obj [("launchFlags.fooBar", Json.arr [Json.str "--x"])])])]

/-- The plugin record the loader produces for fooBarDescriptor. -/
def fooBarConfig : PluginConfig :=
  (load_plugin_config fooBarDescriptor "p").getD emptyPluginConfig

/-- A minimal valid descriptor named "valid". -/
def validDescriptor : Json :=
  Json.obj [("name", Json.str "valid")]

/-- The plugin record loaded from validDescriptor at b/g. -/
def validConfig : PluginConfig :=
  (load_plugin_config validDescriptor ("b" ++ "/" ++ "g")).getD emptyPluginConfig

/-- A descriptor named "x" whose display name is "A". -/
def descriptorA : Json :=
  Json.obj [("name", Json.str "x"), ("displayName", Json.str "A")]

/-- A descriptor named "x" whose display name is "B". -/
def descriptorB : Json :=
  Json.obj [("name", Json.str "x"), ("displayName", Json.str "B")]

/-- A system root holding descriptorA in subdirectory p. -/
def rootA : Root := ⟨"sys", [⟨"p", ConfigFile.parsed descriptorA⟩]⟩

/-- A user root holding descriptorB in subdirectory p. -/
def rootB : Root := ⟨"usr", [⟨"p", ConfigFile.parsed descriptorB⟩]⟩

/-- The record loaded from descriptorA inside rootA. -/
def configA : PluginConfig :=
  (load_plugin_config descriptorA ("sys" ++ "/" ++ "p")).getD emptyPluginConfig

/-- The record loaded from descriptorB inside rootB. -/
def configB : PluginConfig :=
  (load_plugin_config descriptorB ("usr" ++ "/" ++ "p")).getD emptyPluginConfig

/-- A descriptor named "my-app" without an explicit display name. -/
def myAppDescriptor : Json :=
  Json.obj [("name", Json.str "my-app")]

/-- The record loaded from myAppDescriptor at base/dir. -/
def myAppConfig : PluginConfig :=
  (load_plugin_config myAppDescriptor ("base" ++ "/" ++ "dir")).getD emptyPluginConfig

mutual

theorem Json.eq_of_beq : ∀ {a b : Json}, Json.beq a b = true → a = b
  | .null, .null, _ => rfl
  | .bool _, .bool _, h => by
    simp only [Json.beq] at h; exact congrArg Json.bool (by simpa using h)
  | .num _, .num _, h => by
    simp only [Json.beq] at h; exact congrArg Json.num (by simpa using h)
  | .str _, .str _, h => by
    simp only [Json.beq] at h; exact congrArg Json.str (by simpa using h)
  | .arr _, .arr _, h => by
    simp only [Json.beq] at h
    exact congrArg Json.arr (Json.eqList_of_beqList h)
  | .obj _, .obj _, h => by
    simp only [Json.beq] at h
    exact congrArg Json.obj (Json.eqFields_of_beqFields h)

theorem Json.eqList_of_beqList : ∀ {xs ys : List Json}, Json.beqList xs ys = true → xs = ys
  | [], [], _ => rfl
  | _ :: _, _ :: _, h => by
    simp only [Json.beqList, Bool.and_eq_true] at h
    rw [Json.eq_of_beq h.1, Json.eqList_of_beqList h.2]

theorem Json.eqFields_of_beqFields :
    ∀ {fs gs : List (String × Json)}, Json.beqFields fs gs = true → fs = gs
  | [], [], _ => rfl
  | (_, _) :: _, (_, _) :: _, h => by
    simp only [Json.beqFields, Bool.and_eq_true, beq_iff_eq] at h
    rw [h.1.1, Json.eq_of_beq h.1.2, Json.eqFields_of_beqFields h.2]

end

mutual

theorem Json.beq_refl : ∀ (a : Json), Json.beq a a = true
  | .null => rfl
  | .bool _ => by simp [Json.beq]
  | .num _ => by simp [Json.beq]
  | .str _ => by simp [Json.beq]
  | .arr xs => by simp only [Json.beq]; exact Json.beqList_refl xs
  | .obj fs => by simp only [Json.beq]; exact Json.beqFields_refl fs

theorem Json.beqList_refl : ∀ (xs : List Json), Json.beqList xs xs = true
  | [] => rfl
  | x :: xs => by
    simp only [Json.beqList, Bool.and_eq_true]
    exact ⟨Json.beq_refl x, Json.beqList_refl xs⟩

theorem Json.beqFields_refl : ∀ (fs : List (String × Json)), Json.beqFields fs fs = true
  | [] => rfl
  | (k, v) :: fs => by
    simp [Json.beqFields, Json.beq_refl v, Json.beqFields_refl fs]

end

theorem splitOnChar_ne_nil (sep : Char) (cs : List Char) : splitOnChar sep cs ≠ [] := by
  cases cs with
  | nil => simp [splitOnChar]
  | cons c rest =>
    simp only [splitOnChar]
    rcases splitOnChar sep rest with _ | ⟨g, gs⟩
    · simp
    · by_cases hc : c = sep <;> simp [hc]

theorem pySplitDot_ne_nil (key : String) : pySplitDot key ≠ [] := by
  simpa [pySplitDot] using splitOnChar_ne_nil '.' key.data

theorem setPath_fresh : ∀ (ks : List String) (value : Json), ks ≠ [] →
    setPath ks (Json.obj []) value = some (pathDoc ks value)
  | [], _, h => absurd rfl h
  | [_], _, _ => rfl
  | k :: k2 :: ks, v, _ => by
    simp only [setPath, lookupA]
    rw [setPath_fresh (k2 :: ks) v (by simp)]
    simp [pathDoc, insertA]

/-- C1: for every check handler and every configure handler, execute
never propagates an exception: a raising check()/configure() yields
(False, message), a normal return r yields (r, None). -/
theorem claim_C1 :
    (∀ r : Bool, executeCheck (Except.ok r) = (r, none)) ∧
    (∀ msg : String, executeCheck (Except.error msg) = (false, some msg)) ∧
    (∀ r : Bool, executeConfigure (Except.ok r) = (r, none)) ∧
    (∀ msg : String, executeConfigure (Except.error msg) = (false, some msg)) :=
  ⟨fun _ => rfl, fun _ => rfl, fun _ => rfl, fun _ => rfl⟩

/-- C4: the structured-key check returns true exactly when the file
exists and parses, every segment of the dot-separated key resolves
through nested mappings, and the leaf equals the expected value; every
failure mode yields false. -/
theorem claim_C4 (file : FileState) (key : String) (value : Json) :
    jsonKeyCheck file key value = true ↔
      ∃ j : Json, file = FileState.parsed j ∧ navigate (pySplitDot key) j = some value := by
  cases file with
  | parsed j =>
    simp only [jsonKeyCheck]
    cases hnav : navigate (pySplitDot key) j with
    | none =>
      constructor
      · intro h; cases h
      · rintro ⟨j2, hj, hn⟩
        cases hj
        rw [hnav] at hn
        cases hn
    | some current =>
      constructor
      · intro h
        exact ⟨j, rfl, by rw [hnav]; exact congrArg some (Json.eq_of_beq h)⟩
      · rintro ⟨j2, hj, hn⟩
        cases hj
        rw [hnav] at hn
        injection hn with hcv
        rw [hcv]
        exact Json.beq_refl value
  | missing => simp [jsonKeyCheck]
  | unreadable => simp [jsonKeyCheck]
  | malformed => simp [jsonKeyCheck]

/-- C10: on a target file that exists but is not parseable JSON, the
structured-key set handler starts from an empty document, so the write
replaces the previous contents with just the nested key path set to the
value, and it succeeds. -/
theorem claim_C10 (key : String) (value : Json) :
    jsonSetConfigure FileState.malformed key value =
      Except.ok (FileState.parsed (pathDoc (pySplitDot key) value), true) := by
  have h := setPath_fresh (pySplitDot key) value (pySplitDot_ne_nil key)
  simp [jsonSetConfigure, h]

/-- C5 counterexample: with the empty check pattern (which is falsy in
Python), a second run of the text-append handler appends again, so the
file is modified, contradicting the claim as stated for every pattern
contained in the content. -/
theorem claim_C5_counterexample :
    fileAppendConfigure none "a" (some "") = (some "a", true) ∧
    strContains "a" "" = true ∧
    fileAppendConfigure (some "a") "a" (some "") = (some "aa", true) ∧
    ("aa" : String) ≠ "a" :=
  ⟨rfl, rfl, rfl, by decide⟩

/-- C5 as amended: for every nonempty pattern P contained in the content,
appending to a fresh file then checking for P returns true, and a second
append with checkPattern P succeeds without modifying the file. -/
theorem claim_C5 (content P : String) (hP : P ≠ "") (hc : strContains content P = true) :
    fileAppendConfigure none content (some P) = (some content, true) ∧
    fileContainsCheck (some content) P = true ∧
    fileAppendConfigure (some content) content (some P) = (some content, true) := by
  refine ⟨?_, ?_, ?_⟩
  · simp [fileAppendConfigure, hP]
  · simpa [fileContainsCheck] using hc
  · simp [fileAppendConfigure, hP, hc]

theorem claim_C5_witness :
    fileAppendConfigure none "ab" (some "b") = (some "ab", true) ∧
    fileContainsCheck (some "ab") "b" = true ∧
    fileAppendConfigure (some "ab") "ab" (some "b") = (some "ab", true) :=
  claim_C5 "ab" "b" (by decide) (by rfl)

/-- C7: the command check handler yields (true, None) on exit status 0,
(false, None) on a nonzero exit status, and (false, None) on timeout or
spawn failure, never an error message; the command configure handler maps
outcomes to success identically. -/
theorem claim_C7 :
    executeCheck (Except.ok (cmdCheckRun (CmdOutcome.exits 0))) = (true, none) ∧
    (∀ code : Int, code ≠ 0 →
      executeCheck (Except.ok (cmdCheckRun (CmdOutcome.exits code))) = (false, none)) ∧
    executeCheck (Except.ok (cmdCheckRun CmdOutcome.timesOut)) = (false, none) ∧
    executeCheck (Except.ok (cmdCheckRun CmdOutcome.spawnFails)) = (false, none) ∧
    (∀ o : CmdOutcome, cmdConfigureRun o = cmdCheckRun o) ∧
    (∀ code : Int, code ≠ 0 →
      executeConfigure (Except.ok (cmdConfigureRun (CmdOutcome.exits code))) = (false, none)) ∧
    executeConfigure (Except.ok (cmdConfigureRun (CmdOutcome.exits 0))) = (true, none) ∧
    executeConfigure (Except.ok (cmdConfigureRun CmdOutcome.timesOut)) = (false, none) ∧
    executeConfigure (Except.ok (cmdConfigureRun CmdOutcome.spawnFails)) = (false, none) := by
  refine ⟨rfl, ?_, rfl, rfl, ?_, ?_, rfl, rfl, rfl⟩
  · intro code h
    simp [cmdCheckRun, executeCheck, h]
  · intro o
    cases o <;> rfl
  · intro code h
    simp [cmdConfigureRun, executeConfigure, h]

theorem claim_C7_witness :
    executeCheck (Except.ok (cmdCheckRun (CmdOutcome.exits 1))) = (false, none) ∧
    executeConfigure (Except.ok (cmdConfigureRun (CmdOutcome.exits 2))) = (false, none) :=
  ⟨claim_C7.2.1 1 (by decide), claim_C7.2.2.2.2.2.1 2 (by decide)⟩

theorem lookupA_insertA {α : Type} (l : List (String × α)) (k k2 : String) (v : α) :
    lookupA (insertA l k v) k2 = if k = k2 then some v else lookupA l k2 := by
  induction l with
  | nil => simp [insertA, lookupA]
  | cons p rest ih =>
    obtain ⟨k3, v3⟩ := p
    by_cases h : k3 = k
    · subst h
      by_cases h2 : k3 = k2 <;> simp [insertA, lookupA, h2]
    · by_cases h2 : k3 = k2
      · subst h2
        have : ¬k = k3 := fun hk => h hk.symm
        simp [insertA, lookupA, h, this]
      · simp [insertA, lookupA, h, h2, ih]

theorem mem_keysOf_insertA {α : Type} (l : List (String × α)) (k k2 : String) (v : α) :
    k2 ∈ keysOf (insertA l k v) ↔ k2 ∈ keysOf l ∨ k2 = k := by
  induction l with
  | nil => simp [insertA, keysOf]
  | cons p rest ih =>
    obtain ⟨k3, v3⟩ := p
    by_cases h : k3 = k
    · subst h
      simp [insertA, keysOf]
      tauto
    · simp [insertA, keysOf, h] at ih ⊢
      tauto

theorem lookupA_none_of_not_mem {α : Type} (l : List (String × α)) (k : String) :
    k ∉ keysOf l → lookupA l k = none := by
  induction l with
  | nil => intro _; rfl
  | cons p rest ih =>
    obtain ⟨k2, v⟩ := p
    intro h
    simp only [keysOf, List.map_cons, List.mem_cons, not_or] at h
    have h2 : k ∉ keysOf rest := h.2
    have hk : ¬k2 = k := fun he => h.1 he.symm
    simp [lookupA, hk, ih h2]

theorem mem_of_lookupA_isSome {α : Type} (l : List (String × α)) (k : String) :
    (lookupA l k).isSome = true → k ∈ keysOf l := by
  intro h
  by_contra hmem
  rw [lookupA_none_of_not_mem l k hmem] at h
  cases h

theorem distinctKeys_insertA {α : Type} (l : List (String × α)) (k : String) (v : α) :
    distinctKeys (keysOf l) → distinctKeys (keysOf (insertA l k v)) := by
  induction l with
  | nil => intro _; simp [insertA, keysOf, distinctKeys]
  | cons p rest ih =>
    obtain ⟨k3, v3⟩ := p
    intro hd
    simp only [keysOf, List.map_cons, distinctKeys] at hd
    by_cases h : k3 = k
    · subst h
      simpa [insertA, keysOf, distinctKeys] using hd
    · simp only [insertA, h, if_false, keysOf, List.map_cons, distinctKeys]
      refine ⟨?_, ih hd.2⟩
      intro hmem
      rcases (mem_keysOf_insertA rest k k3 v).mp hmem with hin | heq
      · exact hd.1 hin
      · exact h heq

theorem distinctKeys_scan_go (base : String) :
    ∀ (entries : List DirEntry) (acc : List (String × PluginConfig)),
      distinctKeys (keysOf acc) → distinctKeys (keysOf (scan_go base acc entries))
  | [], _, h => h
  | e :: rest, acc, h => by
    cases hc : e.config with
    | parsed j =>
      simp only [scan_go, hc]
      cases load_plugin_config j (base ++ "/" ++ e.item) with
      | some cfg =>
        exact distinctKeys_scan_go base rest _ (distinctKeys_insertA acc cfg.name cfg h)
      | none => exact distinctKeys_scan_go base rest acc h
    | absent => simp only [scan_go, hc]; exact distinctKeys_scan_go base rest acc h
    | malformed => simp only [scan_go, hc]; exact distinctKeys_scan_go base rest acc h

theorem countStr_eq_zero (X : String) (ys : List String) :
    X ∉ ys → countStr X ys = 0 := by
  induction ys with
  | nil => intro _; rfl
  | cons y ys ih =>
    intro h
    simp only [List.mem_cons, not_or] at h
    have hy : ¬y = X := fun he => h.1 he.symm
    simp [countStr, hy, ih h.2]

theorem countStr_eq_one {α : Type} :
    ∀ (l : List (String × α)) (X : String),
      distinctKeys (keysOf l) → (lookupA l X).isSome = true → countStr X (keysOf l) = 1 := by
  intro l X
  induction l with
  | nil => intro _ h; cases h
  | cons p rest ih =>
    obtain ⟨k, v⟩ := p
    intro hd hs
    simp only [keysOf, List.map_cons, distinctKeys] at hd
    by_cases h : k = X
    · subst h
      have h0 : countStr k (List.map Prod.fst rest) = 0 :=
        countStr_eq_zero k (List.map Prod.fst rest) hd.1
      simp [countStr, keysOf, h0]
    · simp only [lookupA, if_neg h] at hs
      have h1 := ih hd.2 hs
      simpa [countStr, keysOf, h] using h1

theorem scan_go_lookup (base X : String) :
    ∀ (entries : List DirEntry) (acc : List (String × PluginConfig)),
      lookupA (scan_go base acc entries) X =
        match lastNamed base X entries with
        | some c => some c
        | none => lookupA acc X
  | [], acc => by simp [scan_go, lastNamed]
  | e :: rest, acc => by
    cases hc : e.config with
    | parsed j =>
      cases hl : load_plugin_config j (base ++ "/" ++ e.item) with
      | some cfg =>
        simp only [scan_go, hc, hl]
        rw [scan_go_lookup base X rest]
        cases hr : lastNamed base X rest with
        | some c => simp [lastNamed, hr]
        | none =>
          rw [lookupA_insertA]
          by_cases hn : cfg.name = X <;> simp [lastNamed, hr, hc, hl, hn]
      | none =>
        simp only [scan_go, hc, hl]
        rw [scan_go_lookup base X rest]
        cases hr : lastNamed base X rest with
        | some c => simp [lastNamed, hr]
        | none => simp [lastNamed, hr, hc, hl]
    | absent =>
      simp only [scan_go, hc]
      rw [scan_go_lookup base X rest]
      cases hr : lastNamed base X rest with
      | some c => simp [lastNamed, hr]
      | none => simp [lastNamed, hr, hc]
    | malformed =>
      simp only [scan_go, hc]
      rw [scan_go_lookup base X rest]
      cases hr : lastNamed base X rest with
      | some c => simp [lastNamed, hr]
      | none => simp [lastNamed, hr, hc]

/-- C2: when the system root and the user-override root each hold a valid
descriptor named X, a full load keeps exactly one record under X, namely
the whole record parsed from the user-override root, which is scanned
second. -/
theorem claim_C2 (r1 r2 : Root) (X : String) (cfg1 cfg2 : PluginConfig)
    (_h1 : lastNamed r1.base X r1.entries = some cfg1)
    (h2 : lastNamed r2.base X r2.entries = some cfg2) :
    lookupA (load_all [r1, r2]) X = some cfg2 ∧
    countStr X (keysOf (load_all [r1, r2])) = 1 := by
  have hload : load_all [r1, r2] =
      scan_go r2.base (scan_go r1.base [] r1.entries) r2.entries := rfl
  have hlk : lookupA (load_all [r1, r2]) X = some cfg2 := by
    rw [hload, scan_go_lookup r2.base X r2.entries, h2]
  refine ⟨hlk, ?_⟩
  apply countStr_eq_one
  · rw [hload]
    apply distinctKeys_scan_go
    apply distinctKeys_scan_go
    trivial
  · rw [hlk]
    rfl

theorem claim_C2_witness :
    lookupA (load_all [rootA, rootB]) "x" = some configB ∧
    countStr "x" (keysOf (load_all [rootA, rootB])) = 1 :=
  claim_C2 rootA rootB "x" configA configB (by rfl) (by rfl)

/-- C6: a malformed descriptor never aborts the scan of its sibling
directories: removing the malformed entry does not change the result of
the scan, and a root holding a malformed plugin next to a valid one still
yields the valid plugin after a full load. -/
theorem claim_C6 :
    (∀ (base : String) (acc : List (String × PluginConfig)) (pre post : List DirEntry)
       (e : DirEntry), e.config = ConfigFile.malformed →
       scan_go base acc (pre ++ e :: post) = scan_go base acc (pre ++ post)) ∧
    (∀ (base item1 item2 : String) (j : Json) (cfg : PluginConfig),
       load_plugin_config j (base ++ "/" ++ item2) = some cfg →
       lookupA
         (load_all [⟨base, [⟨item1, ConfigFile.malformed⟩, ⟨item2, ConfigFile.parsed j⟩]⟩])
         cfg.name = some cfg) := by
  constructor
  · intro base acc pre post e he
    induction pre generalizing acc with
    | nil => simp [scan_go, he]
    | cons p pre ih =>
      simp only [List.cons_append, scan_go]
      cases hpc : p.config with
      | parsed j =>
        cases load_plugin_config j (base ++ "/" ++ p.item) <;> simp [ih]
      | absent => simp [ih]
      | malformed => simp [ih]
  · intro base item1 item2 j cfg hl
    simp [load_all, scan_plugin_directory, scan_go, hl, lookupA_insertA]

theorem claim_C6_witness :
    scan_go "b" [] ([] ++ ⟨"m", ConfigFile.malformed⟩ :: []) = scan_go "b" [] ([] ++ []) ∧
    lookupA
      (load_all [⟨"b", [⟨"m", ConfigFile.malformed⟩, ⟨"g", ConfigFile.parsed validDescriptor⟩]⟩])
      validConfig.name = some validConfig :=
  ⟨claim_C6.1 "b" [] [] [] ⟨"m", ConfigFile.malformed⟩ rfl,
   claim_C6.2 "b" "m" "g" validDescriptor validConfig (by rfl)⟩

/-- C9: for a descriptor with a non-empty name, loading and then querying
the store by that name returns the record, whose display_name equals the
explicit displayName when given and otherwise the hyphen-to-space,
title-cased form of the name. -/
theorem claim_C9 (base item name : String) (data : List (String × Json)) (cfg : PluginConfig)
    (hname : lookupA data "name" = some (Json.str name))
    (hne : name ≠ "")
    (hload : load_plugin_config (Json.obj data) (base ++ "/" ++ item) = some cfg) :
    get_plugin [⟨base, [⟨item, ConfigFile.parsed (Json.obj data)⟩]⟩] name = some cfg ∧
    (∀ d : Json, lookupA data "displayName" = some d → cfg.display_name = d) ∧
    (lookupA data "displayName" = none →
      cfg.display_name = Json.str (pyTitle (pyReplace name "-" " "))) := by
  have hload0 := hload
  simp only [load_plugin_config, hname, hne, if_false, ite_false] at hload
  split at hload
  · cases hload
  · split at hload
    · cases hload
    · split at hload
      · cases hload
      · split at hload
        · cases hload
        · split at hload
          · cases hload
          · split at hload
            · cases hload
            · cases hload
              refine ⟨?_, ?_, ?_⟩
              · simp [get_plugin, load_all, scan_plugin_directory, scan_go, hload0,
                  lookupA_insertA]
              · intro d hd
                simp [hd]
              · intro hd
                simp [hd]

theorem claim_C9_witness :
    get_plugin [⟨"base", [⟨"dir", ConfigFile.parsed myAppDescriptor⟩]⟩] "my-app" =
      some myAppConfig ∧
    myAppConfig.display_name = Json.str (pyTitle (pyReplace "my-app" "-" " ")) := by
  have h := claim_C9 "base" "dir" "my-app" [("name", Json.str "my-app")] myAppConfig
    rfl (by decide) (by rfl)
  exact ⟨h.1, h.2.2 (by rfl)⟩

theorem synthFlags_preserves (k : String) :
    ∀ (condFlags : List (String × Json)) (acc final : List (String × PluginSetting)),
      containsKey acc k = true → synthFlags acc condFlags = some final →
      lookupA final k = lookupA acc k
  | [], acc, final, _, hs => by
    simp only [synthFlags] at hs
    cases hs
    rfl
  | (fk, fl) :: rest, acc, final, hck, hs => by
    simp only [synthFlags] at hs
    by_cases hsw : pyStartsWith fk "launchFlags." = true
    · rw [if_pos hsw] at hs
      by_cases hck2 : containsKey acc (pyReplace fk "launchFlags." "") = true
      · rw [if_pos hck2] at hs
        exact synthFlags_preserves k rest acc final hck hs
      · rw [if_neg hck2] at hs
        cases hj : joinFlags fl with
        | none => rw [hj] at hs; cases hs
        | some jd =>
          rw [hj] at hs
          have hne : pyReplace fk "launchFlags." "" ≠ k := by
            intro he
            rw [he] at hck2
            exact hck2 hck
          have hck3 :
              containsKey (insertA acc (pyReplace fk "launchFlags." "")
                (launchFlagSetting (pyReplace fk "launchFlags." "") jd)) k = true := by
            simpa [containsKey, lookupA_insertA, hne] using hck
          have hrec := synthFlags_preserves k rest _ final hck3 hs
          rw [hrec, lookupA_insertA, if_neg hne]
    · rw [if_neg hsw] at hs
      exact synthFlags_preserves k rest acc final hck hs

theorem synthFlags_synth (k : String) :
    ∀ (condFlags : List (String × Json)) (acc final : List (String × PluginSetting)),
      synthFlags acc condFlags = some final →
      ((∃ joined, lookupA acc k = some (launchFlagSetting k joined)) ∨
        (∃ flagKey flags, (flagKey, flags) ∈ condFlags ∧
          pyStartsWith flagKey "launchFlags." = true ∧
          pyReplace flagKey "launchFlags." "" = k ∧
          containsKey acc k = false)) →
      ∃ joined, lookupA final k = some (launchFlagSetting k joined)
  | [], acc, final, hs, hinv => by
    simp only [synthFlags] at hs
    cases hs
    rcases hinv with h | ⟨_, _, hmem, _⟩
    · exact h
    · cases hmem
  | (fk, fl) :: rest, acc, final, hs, hinv => by
    simp only [synthFlags] at hs
    by_cases hsw : pyStartsWith fk "launchFlags." = true
    · rw [if_pos hsw] at hs
      by_cases hck2 : containsKey acc (pyReplace fk "launchFlags." "") = true
      · rw [if_pos hck2] at hs
        refine synthFlags_synth k rest acc final hs ?_
        rcases hinv with h | ⟨flagKey, flags, hmem, hsw2, hrep, hck⟩
        · exact Or.inl h
        · rcases List.mem_cons.mp hmem with hhead | htail
          · cases hhead
            rw [hrep] at hck2
            rw [hck2] at hck
            cases hck
          · exact Or.inr ⟨flagKey, flags, htail, hsw2, hrep, hck⟩
      · rw [if_neg hck2] at hs
        cases hj : joinFlags fl with
        | none => rw [hj] at hs; cases hs
        | some jd =>
          rw [hj] at hs
          by_cases hek : pyReplace fk "launchFlags." "" = k
          · refine synthFlags_synth k rest _ final hs (Or.inl ⟨jd, ?_⟩)
            rw [lookupA_insertA, if_pos hek, hek]
          · refine synthFlags_synth k rest _ final hs ?_
            rcases hinv with ⟨j0, h0⟩ | ⟨flagKey, flags, hmem, hsw2, hrep, hck⟩
            · exact Or.inl ⟨j0, by rw [lookupA_insertA, if_neg hek]; exact h0⟩
            · rcases List.mem_cons.mp hmem with hhead | htail
              · cases hhead
                exact absurd hrep hek
              · refine Or.inr ⟨flagKey, flags, htail, hsw2, hrep, ?_⟩
                simpa [containsKey, lookupA_insertA, hek] using hck
    · rw [if_neg hsw] at hs
      refine synthFlags_synth k rest acc final hs ?_
      rcases hinv with h | ⟨flagKey, flags, hmem, hsw2, hrep, hck⟩
      · exact Or.inl h
      · rcases List.mem_cons.mp hmem with hhead | htail
        · cases hhead
          exact absurd hsw2 hsw
        · exact Or.inr ⟨flagKey, flags, htail, hsw2, hrep, hck⟩

/-- C3 counterexample: for the conditionalFlags key
launchFlags.launchFlags.fooBar, whose stripped key (in the sense of the
claim, removing the leading prefix) is launchFlags.fooBar, the loader
synthesizes no setting under the stripped key: str.replace removes every
occurrence of launchFlags., so the synthesized setting lands under
fooBar instead. -/
theorem claim_C3_counterexample :
    load_plugin_config nestedFlagDescriptor "p" = some nestedFlagConfig ∧
    nestedFlagConfig.conditional_flags =
      [("launchFlags.launchFlags.fooBar", Json.arr [Json.str "--x"])] ∧
    pyStartsWith "launchFlags.launchFlags.fooBar" "launchFlags." = true ∧
    specStrippedKey "launchFlags.launchFlags.fooBar" = "launchFlags.fooBar" ∧
    lookupA nestedFlagConfig.settings "launchFlags.fooBar" = none ∧
    (lookupA nestedFlagConfig.settings "fooBar").isSome = true :=
  ⟨rfl, rfl, rfl, rfl, rfl, rfl⟩

/-- C3 as amended: the loader synthesizes launch-flag settings keyed by
the flag key with every occurrence of launchFlags. removed (Python
str.replace, which equals stripping the prefix whenever launchFlags.
occurs only once); for such a key not already among the parsed settings a
setting with that key, type launch_flag and the camel-case-split,
title-cased label is present after loading, and keys already present
keep their explicit setting unchanged. -/
theorem claim_C3 (data : List (String × Json)) (path : String) (cfg : PluginConfig)
    (launch condFlags settingsData : List (String × Json))
    (settings0 : List (String × PluginSetting))
    (hlaunch : getLaunchFields data = some launch)
    (hcond : getCondFlags launch = some condFlags)
    (hsett : getSettingsData data = some settingsData)
    (hparse : parseSettings [] settingsData = some settings0)
    (hload : load_plugin_config (Json.obj data) path = some cfg) :
    synthFlags settings0 condFlags = some cfg.settings ∧
    (∀ k : String, containsKey settings0 k = true →
      lookupA cfg.settings k = lookupA settings0 k) ∧
    (∀ flagKey flags k, (flagKey, flags) ∈ condFlags →
      pyStartsWith flagKey "launchFlags." = true →
      k = pyReplace flagKey "launchFlags." "" →
      containsKey settings0 k = false →
      ∃ s : PluginSetting, lookupA cfg.settings k = some s ∧
        s.key = k ∧ s.type = Json.str "launch_flag" ∧
        s.label = Json.str (generate_flag_label k)) := by
  simp only [load_plugin_config, hlaunch, hcond, hsett, hparse] at hload
  split at hload
  · split at hload
    · cases hload
    · split at hload
      · cases hload
      · cases hsf : synthFlags settings0 condFlags with
        | none => rw [hsf] at hload; cases hload
        | some st =>
          rw [hsf] at hload
          cases hload
          refine ⟨?_, ?_, ?_⟩
          · rfl
          · intro k hck
            exact synthFlags_preserves k condFlags settings0 st hck hsf
          · intro flagKey flags k hmem hsw hrep hck
            obtain ⟨jd, hjd⟩ := synthFlags_synth k condFlags settings0 st hsf
              (Or.inr ⟨flagKey, flags, hmem, hsw, hrep.symm, hck⟩)
            exact ⟨launchFlagSetting k jd, hjd, rfl, rfl, rfl⟩
  · cases hload

theorem claim_C3_witness :
    (lookupA fooBarConfig.settings "fooBar").map PluginSetting.type =
      some (Json.str "launch_flag") ∧
    (lookupA fooBarConfig.settings "fooBar").map PluginSetting.label =
      some (Json.str "Foo Bar") := by
  have h := claim_C3
    [("name", Json.str "plug"),
     ("launch", Json.obj [("conditionalFlags",
       Json.obj [("launchFlags.fooBar", Json.arr [Json.str "--x"])])])]
    "p" fooBarConfig
    [("conditionalFlags", Json.obj [("launchFlags.fooBar", Json.arr [Json.str "--x"])])]
    [("launchFlags.fooBar", Json.arr [Json.str "--x"])]
    [] [] rfl rfl rfl rfl (by rfl)
  obtain ⟨s, hs, hkey, htype, hlabel⟩ :=
    h.2.2 "launchFlags.fooBar" (Json.arr [Json.str "--x"]) "fooBar"
      (List.mem_singleton_self _) rfl rfl rfl
  rw [hs]
  constructor
  · simp only [Option.map_some']
    rw [htype]
  · simp only [Option.map_some']
    rw [hlabel]
    rfl

theorem isPre_append : ∀ (p a b : List Char), isPre p a = true → isPre p (a ++ b) = true
  | [], _, _, _ => rfl
  | _ :: _, [], _, h => by cases h
  | c :: ps, x :: a2, b, h => by
    simp only [isPre, Bool.and_eq_true] at h
    simp only [List.cons_append, isPre, Bool.and_eq_true]
    exact ⟨h.1, isPre_append ps a2 b h.2⟩

theorem hasInfix_nil_pattern : ∀ (s : List Char), hasInfix [] s = true
  | [] => rfl
  | _ :: _ => by simp [hasInfix, isPre]

theorem hasInfix_append_right (p b : List Char) :
    ∀ (a : List Char), hasInfix p b = true → hasInfix p (a ++ b) = true
  | [], h => h
  | c :: a2, h => by
    simp only [List.cons_append, hasInfix, Bool.or_eq_true]
    exact Or.inr (hasInfix_append_right p b a2 h)

theorem hasInfix_append_left (p b : List Char) :
    ∀ (a : List Char), hasInfix p a = true → hasInfix p (a ++ b) = true
  | [], h => by
    cases p with
    | nil => exact hasInfix_nil_pattern b
    | cons c ps => cases h
  | c :: a2, h => by
    simp only [hasInfix, Bool.or_eq_true] at h
    simp only [List.cons_append, hasInfix, Bool.or_eq_true]
    rcases h with h | h
    · exact Or.inl (by simpa using isPre_append p (c :: a2) b h)
    · exact Or.inr (hasInfix_append_left p b a2 h)

theorem string_data_append (a b : String) : (a ++ b).data = a.data ++ b.data := by
  cases a
  cases b
  rfl

theorem strContains_append_right (a b p : String) :
    strContains b p = true → strContains (a ++ b) p = true := by
  intro h
  simp only [strContains, string_data_append]
  exact hasInfix_append_right p.data b.data a.data h

theorem strContains_append_left (a b p : String) :
    strContains a p = true → strContains (a ++ b) p = true := by
  intro h
  simp only [strContains, string_data_append]
  exact hasInfix_append_left p.data b.data a.data h

theorem strContains_ffBlob (pref_line pat : String) :
    strContains pref_line pat = true → strContains (ffBlob pref_line) pat = true := by
  intro h
  exact strContains_append_right _ _ _ (strContains_append_left _ _ _ h)

theorem ffLoop_ok (pref_line pat : String) (hpat : strContains pref_line pat = true) :
    ∀ (entries : List ProfileEntry),
      (entries.filter (fun e => strContains e.item ".default")).length = 1 →
      (firefoxConfigureLoop pref_line pat entries).2 = true ∧
      firefoxCheckLoop pat (firefoxConfigureLoop pref_line pat entries).1 = true ∧
      firefoxConfigureLoop pref_line pat (firefoxConfigureLoop pref_line pat entries).1 =
        ((firefoxConfigureLoop pref_line pat entries).1, true)
  | [], h1 => by simp at h1
  | e :: rest, h1 => by
    obtain ⟨it, uj, pj⟩ := e
    by_cases hme : strContains it ".default" = true
    · cases uj with
      | some content =>
        by_cases hcp : strContains content pat = true
        · simp [firefoxConfigureLoop, hme, hcp, firefoxCheckLoop, firefoxCheckEntry]
        · have hc2 : strContains (content ++ ffBlob pref_line) pat = true :=
            strContains_append_right _ _ _ (strContains_ffBlob pref_line pat hpat)
          simp [firefoxConfigureLoop, hme, hcp, hc2, firefoxCheckLoop, firefoxCheckEntry]
      | none =>
        have hc2 : strContains (ffBlob pref_line) pat = true :=
          strContains_ffBlob pref_line pat hpat
        simp [firefoxConfigureLoop, hme, hc2, firefoxCheckLoop, firefoxCheckEntry]
    · have h2 : (rest.filter (fun e => strContains e.item ".default")).length = 1 := by
        simpa [List.filter_cons, hme] using h1
      have ih := ffLoop_ok pref_line pat hpat rest h2
      simp only [firefoxConfigureLoop, hme, if_false]
      refine ⟨ih.1, ?_, ?_⟩
      · simpa [firefoxCheckLoop, hme] using ih.2.1
      · simp [firefoxConfigureLoop, hme, ih.2.2]

/-- C8: with a profile root holding exactly one directory whose name
contains .default and a check pattern occurring in the preference line,
the profile-directory configure succeeds, the subsequent check for the
pattern succeeds, and a second configure reports success without changing
the profile root again. -/
theorem claim_C8 (entries : List ProfileEntry) (pref_line check_pattern : String)
    (hone : (entries.filter (fun e => strContains e.item ".default")).length = 1)
    (hpat : strContains pref_line check_pattern = true) :
    (firefoxConfigure pref_line check_pattern (some entries)).2 = true ∧
    firefoxProfileCheck check_pattern
      (firefoxConfigure pref_line check_pattern (some entries)).1 = true ∧
    firefoxConfigure pref_line check_pattern
        (firefoxConfigure pref_line check_pattern (some entries)).1 =
      ((firefoxConfigure pref_line check_pattern (some entries)).1, true) := by
  have h := ffLoop_ok pref_line check_pattern hpat entries hone
  refine ⟨h.1, ?_, ?_⟩
  · simpa [firefoxConfigure, firefoxProfileCheck] using h.2.1
  · simp [firefoxConfigure, h.2.2]

theorem claim_C8_witness :
    (firefoxConfigure "user_pref(x);" "x" (some [⟨"abc.default", none, none⟩])).2 = true ∧
    firefoxProfileCheck "x"
      (firefoxConfigure "user_pref(x);" "x" (some [⟨"abc.default", none, none⟩])).1 = true ∧
    firefoxConfigure "user_pref(x);" "x"
        (firefoxConfigure "user_pref(x);" "x" (some [⟨"abc.default", none, none⟩])).1 =
      ((firefoxConfigure "user_pref(x);" "x" (some [⟨"abc.default", none, none⟩])).1, true) :=
  claim_C8 [⟨"abc.default", none, none⟩] "user_pref(x);" "x" (by rfl) (by rfl)

theorem claim_C4_witness :
    jsonKeyCheck (FileState.parsed (Json.obj [("a", Json.obj [("b", Json.num 1)])]))
      "a.b" (Json.num 1) = true :=
  (claim_C4 (FileState.parsed (Json.obj [("a", Json.obj [("b", Json.num 1)])]))
    "a.b" (Json.num 1)).mpr ⟨Json.obj [("a", Json.obj [("b", Json.num 1)])], rfl, rfl⟩
